import Mathlib

/-
Verification development for the Shanghai T2DM CGM preprocessing pipeline
(scripts/data_preprocess/cgm_data_class.py).  The polars pipeline is shallowly
embedded: dataframes become lists of records, datetimes become integer seconds
since the epoch, polars expressions become Lean functions, and calls that can
raise become Except values.  Spreadsheet input is modelled as the row lists
obtained after the fixed column renaming and schema cast of the loader (those
steps change neither row count nor row order nor the fields used below).
-/

namespace CGMSpec

/-- Replace the first occurrence of the pattern in a character list; model of
the polars expression str.replace, which rewrites only the first match. -/
def replaceFirst (pat rep : List Char) : List Char → List Char
  | [] => []
  | c :: rest =>
    if pat ≠ [] ∧ pat.isPrefixOf (c :: rest) then rep ++ (c :: rest).drop pat.length
    else c :: replaceFirst pat rep rest

/-- Fuel-driven worker for replaceAll; fuel bounds the number of steps so the
recursion is structural (fuel = length of the scanned list always suffices). -/
def replaceAllAux (pat rep : List Char) : Nat → List Char → List Char
  | _, [] => []
  | 0, s => s
  | Nat.succ n, c :: rest =>
    if pat ≠ [] ∧ pat.isPrefixOf (c :: rest) then
      rep ++ replaceAllAux pat rep n ((c :: rest).drop pat.length)
    else c :: replaceAllAux pat rep n rest

/-- Replace every (non-overlapping, left-to-right) occurrence of the pattern;
model of the Python method str.replace used on file paths. -/
def replaceAll (pat rep s : List Char) : List Char :=
  replaceAllAux pat rep s.length s

/-- Fold the digits of a numeral to a natural number. -/
def digitsToNat (s : List Char) : Nat :=
  s.foldl (fun a c => a * 10 + (c.toNat - 48)) 0

/-- Model of the polars non-strict cast of a text cell to Float64, restricted
to unsigned integer literals: a nonempty all-digit string parses to its value,
anything else (including the empty string) yields null.  The claims settled
here only exercise such cells. -/
def parseNum (s : List Char) : Option Nat :=
  if s ≠ [] ∧ s.all Char.isDigit then some (digitsToNat s) else none

/-- One metadata cell through prepare_metadata: strip the first "/" and cast
non-strictly. -/
def castCell (s : List Char) : Option Nat :=
  parseNum (replaceFirst (['/']) ([]) s)

/-- Raw metadata table: the column names, plus for each name the list of cell
texts in row order (the numeric-looking columns arrive as text). -/
structure MetaFrame where
  cols : List String
  val : String → List (List Char)

/-- Fixed list of metadata columns that prepare_metadata casts to numeric. -/
def numeric_columns : List String :=
  ["Fasting Plasma Glucose (mg/dl)",
   "2-hour Postprandial Plasma Glucose (mg/dl)",
   "Fasting C-peptide (nmol/L)",
   "2-hour Postprandial C-peptide (nmol/L)",
   "Fasting Insulin (pmol/L)",
   "2-hour Postprandial insulin (pmol/L)",
   "HbA1c (mmol/mol)",
   "Glycated Albumin (%)",
   "Total Cholesterol (mmol/L)",
   "Triglyceride (mmol/L)",
   "High-Density Lipoprotein Cholesterol (mmol/L)",
   "Low-Density Lipoprotein Cholesterol (mmol/L)",
   "Creatinine (umol/L)",
   "Estimated Glomerular Filtration Rate (ml/min/1.73m2)",
   "Uric Acid (mmol/L)",
   "Blood Urea Nitrogen (mmol/L)",
   "Estimated Glomerular Filtration Rate  (ml/min/1.73m2) "]

/-- Output cell of prepare_metadata: an untouched text cell or a cast numeric
cell (null modelled as none). -/
inductive OutCell where
  | str : List Char → OutCell
  | num : Option Nat → OutCell
deriving DecidableEq

/-- prepare_metadata: select the columns outside the numeric list unchanged,
then append each present numeric column with the first "/" stripped and a
non-strict numeric cast applied cell-wise. -/
def prepare_metadata (df : MetaFrame) : List (String × List OutCell) :=
  ((df.cols.filter fun c => ¬ c ∈ numeric_columns).map fun c =>
      (c, (df.val c).map OutCell.str))
  ++ ((numeric_columns.filter fun c => c ∈ df.cols).map fun c =>
      (c, (df.val c).map fun s => OutCell.num (castCell s)))

/-- Column access on a prepared table (first matching column name). -/
def lookupCol {β : Type} (c : String) : List (String × β) → Option β
  | [] => none
  | kv :: rest => if c = kv.1 then some kv.2 else lookupCol c rest

/-- Folder holding the per-patient spreadsheets. -/
def shanghaiDir : List Char := ("Shanghai_T2DM").toList

def xlsxSuffix : List Char := (".xlsx").toList

def xlsSuffix : List Char := (".xls").toList

/-- Model of os.path join for an absolute left operand on a posix system. -/
def pathJoin (a b : List Char) : List Char := a ++ '/' :: b

/-- Primary candidate path of a subject file (the .xlsx name). -/
def xlsxPath (base subj : List Char) : List Char :=
  pathJoin (pathJoin base shanghaiDir) (subj ++ xlsxSuffix)

/-- Fallback path: the Python call path.replace rewrites every occurrence of
".xlsx" in the whole primary path, not just the final extension. -/
def xlsFallbackPath (base subj : List Char) : List Char :=
  replaceAll xlsxSuffix xlsSuffix (xlsxPath base subj)

/-- Message of the FileNotFoundError raised when neither candidate exists. -/
def notFoundMsg (subj p : List Char) : List Char :=
  ("No CGM file found for subject ").toList ++ subj ++ (" at ").toList ++ p

/-- Model of get_chinese_subject_cgm_file_path: the filesystem is the oracle
ex (os.path.exists), base stands for the result of os.path.abspath on the
local base path, and failure is an Except carrying the error message. -/
def get_chinese_subject_cgm_file_path (ex : List Char → Bool)
    (base subj : List Char) : Except (List Char) (List Char) :=
  if ex (xlsxPath base subj) then Except.ok (xlsxPath base subj)
  else if ex (xlsFallbackPath base subj) then Except.ok (xlsFallbackPath base subj)
  else Except.error (notFoundMsg subj (xlsFallbackPath base subj))

/-- Row of a per-patient spreadsheet after renaming and casting: timestamp
(null allowed), glucose reading, and the English dietary-intake text. -/
structure RawRow where
  date : Option Int
  cgm : Option Int
  diEng : Option (List Char)
deriving DecidableEq

/-- Row of the combined table: the per-patient index attached by
with_row_index plus the loaded fields and the patient identifier column. -/
structure IndexedRow where
  cgmEventOrder : Nat
  date : Option Int
  cgm : Option Int
  diEng : Option (List Char)
  patient : String
deriving DecidableEq

def diPatOld : List Char := ("Data not available").toList

def diPatNew : List Char := ("data not available").toList

/-- Normalization of one free-text label value in the DI (Eng) column. -/
def normalizeDI (s : List Char) : List Char := replaceFirst diPatOld diPatNew s

/-- Worker of load_single_subject_cgm_data: tag every row with the subject
identifier and attach consecutive row indices starting at the accumulator. -/
def loadAux (subjectId : String) : Nat → List RawRow → List IndexedRow
  | _, [] => []
  | i, r :: rs =>
    { cgmEventOrder := i, date := r.date, cgm := r.cgm,
      diEng := r.diEng.map normalizeDI, patient := subjectId } :: loadAux subjectId (i + 1) rs

/-- load_single_subject_cgm_data (daily resampling not exercised by any
claim): normalize, tag the patient column, attach a zero-based row index. -/
def load_single_subject_cgm_data (subjectId : String) (raw : List RawRow) : List IndexedRow :=
  loadAux subjectId 0 raw

/-- create_all_cgm_data over the metadata patient list. -/
def create_all_cgm_data (patients : List String) (raw : String → List RawRow) :
    List (List IndexedRow) :=
  patients.map fun s => load_single_subject_cgm_data s (raw s)

/-- The combined table built in the constructor: concatenate every patient and
drop rows with a null timestamp.  (The concat of a nonempty metadata list is
modelled by join; an empty patient list is outside every claim here.) -/
def cgm_df (patients : List String) (raw : String → List RawRow) : List IndexedRow :=
  ((create_all_cgm_data patients raw).flatten).filter fun r => r.date ≠ none

/-- get_single_subject_cgm_data: filter the combined table by identifier. -/
def get_single_subject_cgm_data (patients : List String) (raw : String → List RawRow)
    (subjectId : String) : List IndexedRow :=
  (cgm_df patients raw).filter fun r => r.patient = subjectId

/-- Allowed time resolutions. -/
inductive Resolution where
  | d1 | h12 | h6 | h3 | h1
deriving DecidableEq

def Resolution.seconds : Resolution → Int
  | .d1 => 86400
  | .h12 => 43200
  | .h6 => 21600
  | .h3 => 10800
  | .h1 => 3600

/-- Group key of group_by_dynamic with a patient group: the patient and the
epoch-aligned window index of the timestamp (windows are the half-open
intervals of width sec starting at multiples of sec). -/
def bucketKey (sec : Int) (r : IndexedRow) : String × Int :=
  (r.patient, (r.date.getD 0).fdiv sec)

/-- Hash group-by: one group per distinct key, holding the rows of that key in
source order (group order itself is irrelevant to every claim below). -/
def groupByKey {κ α : Type} [DecidableEq κ] (key : α → κ) (l : List α) :
    List (κ × List α) :=
  ((l.map key).dedup).map fun k => (k, l.filter fun x => key x = k)

/-- Output bucket of get_cgm_data_at_resolution. -/
structure CgmBucket where
  patient : String
  date : Int
  cgms : List (Option Int)
  cgmTimeStamps : List Int
  count : Nat
  cgmEventOrders : List Nat
  resEventOrder : Nat
deriving DecidableEq

def bucketRecord (sec : Int) (i : Nat) (kg : (String × Int) × List IndexedRow) : CgmBucket :=
  { patient := kg.1.1, date := kg.1.2 * sec,
    cgms := kg.2.map fun r => r.cgm,
    cgmTimeStamps := kg.2.map fun r => r.date.getD 0,
    count := kg.2.length,
    cgmEventOrders := kg.2.map fun r => r.cgmEventOrder,
    resEventOrder := i }

/-- Attach the resolution-labeled sequential index to the bucket list. -/
def reindexBuckets (sec : Int) : Nat → List ((String × Int) × List IndexedRow) → List CgmBucket
  | _, [] => []
  | i, kg :: rest => bucketRecord sec i kg :: reindexBuckets sec (i + 1) rest

/-- get_cgm_data_at_resolution: bucket the whole combined table per patient
into fixed windows, collecting readings, timestamps, count and the original
per-patient row indices. -/
def get_cgm_data_at_resolution (patients : List String) (raw : String → List RawRow)
    (res : Resolution) : List CgmBucket :=
  reindexBuckets res.seconds 0 (groupByKey (bucketKey res.seconds) (cgm_df patients raw))

/-- Allowed before offsets, with their length in seconds. -/
inductive BeforeOffset where
  | m1d | m12h | m6h | m3h | m1h
deriving DecidableEq

def BeforeOffset.seconds : BeforeOffset → Int
  | .m1d => -86400
  | .m12h => -43200
  | .m6h => -21600
  | .m3h => -10800
  | .m1h => -3600

/-- Allowed after offsets, with their length in seconds. -/
inductive AfterOffset where
  | p1d | p12h | p6h | p3h | p1h
deriving DecidableEq

def AfterOffset.seconds : AfterOffset → Int
  | .p1d => 86400
  | .p12h => 43200
  | .p6h => 21600
  | .p3h => 10800
  | .p1h => 3600

/-- Food event row: timestamp, patient, intake text, inclusion window, and the
per-patient sequential order attached by with_row_index. -/
structure FoodEvent where
  eventOrder : Nat
  date : Int
  patient : String
  diEng : List Char
  startInterval : Int
  endInterval : Int
deriving DecidableEq

/-- Stable insertion of a row into a date-sorted list. -/
def insertByDate (r : IndexedRow) : List IndexedRow → List IndexedRow
  | [] => [r]
  | x :: xs => if r.date.getD 0 < x.date.getD 0 then r :: x :: xs else x :: insertByDate r xs

/-- Sort rows by timestamp (a stable sort; polars leaves tie order
unspecified, and no claim below depends on tie order). -/
def sortByDate : List IndexedRow → List IndexedRow
  | [] => []
  | x :: xs => insertByDate x (sortByDate xs)

/-- Turn date-sorted intake rows into food events, attaching consecutive order
indices and the window computed by dt.offset_by on each side. -/
def mkFoodEvents (b a : Int) : Nat → List IndexedRow → List FoodEvent
  | _, [] => []
  | i, r :: rs =>
    { eventOrder := i, date := r.date.getD 0, patient := r.patient,
      diEng := (r.diEng).getD ([]),
      startInterval := r.date.getD 0 + b,
      endInterval := r.date.getD 0 + a } :: mkFoodEvents b a (i + 1) rs

/-- get_single_subject_food_events: keep rows with a present English intake
text, compute both window bounds, sort by timestamp, attach order indices. -/
def get_single_subject_food_events (patients : List String) (raw : String → List RawRow)
    (subjectId : String) (bo : BeforeOffset) (ao : AfterOffset) : List FoodEvent :=
  mkFoodEvents bo.seconds ao.seconds 0
    (sortByDate ((get_single_subject_cgm_data patients raw subjectId).filter
      fun r => r.diEng ≠ none))

/-- Reading selected into the window of one food event, before labeling. -/
structure EventReading where
  date : Int
  cgm : Option Int
  patient : String
  eventOrder : Nat
  eventId : String
  eventDescription : List Char
  eventDate : Int
deriving DecidableEq

/-- Event identifier literal built per event and patient. -/
def mkEventId (i : Nat) (pat0 : String) : String :=
  ("food_event_") ++ toString i ++ ("_") ++ pat0

def toEventReading (fe : FoodEvent) (i : Nat) (pat0 : String) (r : IndexedRow) : EventReading :=
  { date := r.date.getD 0, cgm := r.cgm, patient := r.patient,
    eventOrder := fe.eventOrder, eventId := mkEventId i pat0,
    eventDescription := fe.diEng, eventDate := fe.date }

/-- One comprehension element of get_single_subject_events_cgm_data: the
patient readings whose timestamp lies in the inclusive window of the event,
annotated with the event columns. -/
def eventBlock (cgmData : List IndexedRow) (fe : FoodEvent) (i : Nat) (pat0 : String) :
    List EventReading :=
  (cgmData.filter fun r =>
      fe.startInterval ≤ r.date.getD 0 ∧ r.date.getD 0 ≤ fe.endInterval).map
    (toEventReading fe i pat0)

/-- All comprehension elements, with the running event position. -/
def eventBlocks (cgmData : List IndexedRow) (pat0 : String) :
    Nat → List FoodEvent → List (List EventReading)
  | _, [] => []
  | i, fe :: fes => eventBlock cgmData fe i pat0 :: eventBlocks cgmData pat0 (i + 1) fes

/-- Windowed reading after the with_columns stage adding the before flag and
the meal-type label. -/
structure LabeledReading where
  date : Int
  cgm : Option Int
  patient : String
  eventOrder : Nat
  eventId : String
  eventDescription : List Char
  eventDate : Int
  isBeforeFoodEvent : Bool
  eventType : String
deriving DecidableEq

/-- Hour of day of a timestamp (model of dt.hour on naive datetimes). -/
def hourOfDay (t : Int) : Int := (t.emod 86400) / 3600

def breakfastLabel : String := "Breakfast"

def lunchLabel : String := "Lunch"

def dinnerLabel : String := "Dinner"

/-- Meal-type label of an event timestamp (the when/then/otherwise chain). -/
def mealLabel (t : Int) : String :=
  if hourOfDay t < 10 then breakfastLabel
  else if hourOfDay t < 15 then lunchLabel
  else dinnerLabel

/-- Labeling pass: the before flag is the sign test of event_date - Date. -/
def labelReading (r : EventReading) : LabeledReading :=
  { date := r.date, cgm := r.cgm, patient := r.patient, eventOrder := r.eventOrder,
    eventId := r.eventId, eventDescription := r.eventDescription, eventDate := r.eventDate,
    isBeforeFoodEvent := decide (r.eventDate - r.date > 0),
    eventType := mealLabel r.eventDate }

def concatEmptyMsg : String := "cannot concat empty list"

/-- Model of pl.concat: raises on the empty input list. -/
def pl_concat {α : Type} (dfs : List (List α)) : Except String (List α) :=
  if dfs.isEmpty then Except.error concatEmptyMsg else Except.ok dfs.flatten

/-- First value of the patient column (only read when at least one event
exists, in which case the patient table is nonempty). -/
def patZero (cgmData : List IndexedRow) : String :=
  ((cgmData.head?).map fun r => r.patient).getD ("")

/-- The flat labeled table built inside get_single_subject_events_cgm_data
before grouping: concatenation of the per-event blocks, then labeling. -/
def event_df (patients : List String) (raw : String → List RawRow) (subjectId : String)
    (bo : BeforeOffset) (ao : AfterOffset) : Except String (List LabeledReading) :=
  (pl_concat (eventBlocks (get_single_subject_cgm_data patients raw subjectId)
      (patZero (get_single_subject_cgm_data patients raw subjectId)) 0
      (get_single_subject_food_events patients raw subjectId bo ao))).map
    fun l => l.map labelReading

/-- Grouped per-event record of get_single_subject_events_cgm_data. -/
structure EventSegment where
  eventId : String
  dates : List Int
  cgms : List (Option Int)
  isBefore : List Bool
  cgmLength : Nat
  patient : String
  eventDescription : List Char
  eventDate : Int
  eventOrder : Nat
  eventType : String
  eventStartDate : Option Int
  eventEndDate : Option Int
  eventDuration : Option Int
deriving DecidableEq

def optSub (a b : Option Int) : Option Int :=
  match a, b with
  | some x, some y => some (x - y)
  | _, _ => none

/-- Aggregate one event group: collect the reading lists, their length, the
first value of the event columns, and the start, end and duration columns. -/
def mkSegment (eid : String) (g : List LabeledReading) : EventSegment :=
  { eventId := eid,
    dates := g.map fun r => r.date,
    cgms := g.map fun r => r.cgm,
    isBefore := g.map fun r => r.isBeforeFoodEvent,
    cgmLength := g.length,
    patient := ((g.head?).map fun r => r.patient).getD (""),
    eventDescription := ((g.head?).map fun r => r.eventDescription).getD ([]),
    eventDate := ((g.head?).map fun r => r.eventDate).getD 0,
    eventOrder := ((g.head?).map fun r => r.eventOrder).getD 0,
    eventType := ((g.head?).map fun r => r.eventType).getD (""),
    eventStartDate := (g.map fun r => r.date).head?,
    eventEndDate := (g.map fun r => r.date).getLast?,
    eventDuration := optSub ((g.map fun r => r.date).getLast?) ((g.map fun r => r.date).head?) }

/-- Sort key of the final per-patient segment sort. -/
def segBefore (a b : EventSegment) : Bool :=
  decide (a.eventOrder < b.eventOrder ∨
    (a.eventOrder = b.eventOrder ∧ (a.eventStartDate).getD 0 < (b.eventStartDate).getD 0))

def insertSeg (s : EventSegment) : List EventSegment → List EventSegment
  | [] => [s]
  | x :: xs => if segBefore s x then s :: x :: xs else x :: insertSeg s xs

def sortSegs : List EventSegment → List EventSegment
  | [] => []
  | x :: xs => insertSeg x (sortSegs xs)

/-- get_single_subject_events_cgm_data: label, group per event identifier,
aggregate, and sort by event order then first reading timestamp.  The
underlying pl.concat raises when the patient has no food events. -/
def get_single_subject_events_cgm_data (patients : List String) (raw : String → List RawRow)
    (subjectId : String) (bo : BeforeOffset) (ao : AfterOffset) :
    Except String (List EventSegment) :=
  (event_df patients raw subjectId bo ao).map fun l =>
    sortSegs ((groupByKey (fun r => r.eventId) l).map fun kg => mkSegment kg.1 kg.2)

/-- get_all_food_events: per-patient events concatenated.  The comment in the
source says the order index is reset here, but no reset is performed. -/
def get_all_food_events (patients : List String) (raw : String → List RawRow)
    (bo : BeforeOffset) (ao : AfterOffset) : Except String (List FoodEvent) :=
  pl_concat (patients.map fun p => get_single_subject_food_events patients raw p bo ao)

/-- Segment of the all-patients table: the per-patient order column is dropped
and a fresh global sequential order is attached. -/
structure GlobalSeg where
  eventOrder : Nat
  eventId : String
  dates : List Int
  cgms : List (Option Int)
  isBefore : List Bool
  cgmLength : Nat
  patient : String
  eventDescription : List Char
  eventDate : Int
  eventType : String
  eventStartDate : Option Int
  eventEndDate : Option Int
  eventDuration : Option Int
deriving DecidableEq

def reindexSegs : Nat → List EventSegment → List GlobalSeg
  | _, [] => []
  | i, s :: ss =>
    { eventOrder := i, eventId := s.eventId, dates := s.dates, cgms := s.cgms,
      isBefore := s.isBefore, cgmLength := s.cgmLength, patient := s.patient,
      eventDescription := s.eventDescription, eventDate := s.eventDate,
      eventType := s.eventType, eventStartDate := s.eventStartDate,
      eventEndDate := s.eventEndDate, eventDuration := s.eventDuration } :: reindexSegs (i + 1) ss

/-- get_all_events_cgm_data: per-patient segment tables concatenated, the old
order column excluded, and a fresh global zero-based order attached. -/
def get_all_events_cgm_data (patients : List String) (raw : String → List RawRow)
    (bo : BeforeOffset) (ao : AfterOffset) : Except String (List GlobalSeg) := do
  let dfs ← patients.mapM fun p => get_single_subject_events_cgm_data patients raw p bo ao
  let all ← pl_concat dfs
  pure (reindexSegs 0 all)

/-- Decidable equality on Except, used to evaluate pipeline results. -/
def exceptDecEq {ε α : Type} [DecidableEq ε] [DecidableEq α] :
    (a b : Except ε α) → Decidable (a = b)
  | Except.error e1, Except.error e2 =>
    match decEq e1 e2 with
    | isTrue h => isTrue (congrArg Except.error h)
    | isFalse h => isFalse fun hh => h (Except.error.inj hh)
  | Except.ok x, Except.ok y =>
    match decEq x y with
    | isTrue h => isTrue (congrArg Except.ok h)
    | isFalse h => isFalse fun hh => h (Except.ok.inj hh)
  | Except.error _, Except.ok _ => isFalse fun hh => Except.noConfusion hh
  | Except.ok _, Except.error _ => isFalse fun hh => Except.noConfusion hh

instance {ε α : Type} [DecidableEq ε] [DecidableEq α] : DecidableEq (Except ε α) :=
  exceptDecEq

/-- Concrete metadata frame: one text column and one numeric column whose
single cell is the text "1/2". -/
def mdf : MetaFrame :=
  { cols := ["Patient Number", "HbA1c (mmol/mol)"],
    val := fun c => if c = ("HbA1c (mmol/mol)") then [['1', '/', '2']] else [['P', '1']] }

/-- Filesystem oracle under which exactly the file
b/Shanghai_T2DM/a.xlsx.xls (the .xls-extension name of subject a.xlsx)
exists. -/
def trickyOracle : List Char → Bool :=
  fun p => p == (("b/Shanghai_T2DM/a.xlsx.xls").toList)

/-- Patient list with a single patient whose file has a null-timestamp row in
the middle. -/
def c2Pats : List String := ["P1"]

def c2raw : String → List RawRow :=
  fun _ => [⟨some 0, some 1, none⟩, ⟨none, some 2, none⟩, ⟨some 60, some 3, none⟩]

/-- Two patients with all-non-null timestamps. -/
def w2Pats : List String := ["P1", "P2"]

def w2raw : String → List RawRow :=
  fun _ => [⟨some 0, some 1, none⟩, ⟨some 300, some 2, none⟩]

def w6Pats : List String := ["P1"]

/-- One meal at 12:00 (43200 s) with readings at the window limits 09:00 and
15:00 and just outside them. -/
def w6raw : String → List RawRow :=
  fun _ =>
    [⟨some 32399, some 1, none⟩, ⟨some 32400, some 2, none⟩, ⟨some 43200, some 3, some (['r'])⟩,
     ⟨some 54000, some 4, none⟩, ⟨some 54001, some 5, none⟩]

def feDefault : FoodEvent := ⟨0, 0, "", [], 0, 0⟩

def w6fe : FoodEvent :=
  (get_single_subject_food_events w6Pats w6raw ("P1") BeforeOffset.m3h AfterOffset.p3h).getD 0
    feDefault

/-- Meals at clock hours 9, 14, 20, 10 and 15. -/
def w7raw : String → List RawRow :=
  fun _ =>
    [⟨some 32400, some 1, some (['m'])⟩, ⟨some 50400, some 2, some (['m'])⟩,
     ⟨some 72000, some 3, some (['m'])⟩, ⟨some 36000, some 4, some (['m'])⟩,
     ⟨some 54000, some 5, some (['m'])⟩]

def lrDefault : LabeledReading := ⟨0, none, "", 0, "", [], 0, false, ""⟩

def w7l : List LabeledReading :=
  (event_df w6Pats w7raw ("P1") BeforeOffset.m3h AfterOffset.p3h).toOption.getD ([])

/-- First labeled reading whose event has the given timestamp. -/
def w7r (d : Int) : LabeledReading :=
  (w7l.filter fun r => r.eventDate = d).getD 0 lrDefault

/-- Patient rows with no dietary-intake text at all. -/
def w9raw : String → List RawRow := fun _ => [⟨some 0, some 1, none⟩]

def w10l : List LabeledReading :=
  (event_df w6Pats w6raw ("P1") BeforeOffset.m3h AfterOffset.p3h).toOption.getD ([])

/-- The labeled reading taken exactly at the event timestamp. -/
def w10r : LabeledReading := (w10l.filter fun r => r.date = 43200).getD 0 lrDefault

/-- Two patients contributing one food event each. -/
def c1Pats : List String := ["P1", "P2"]

def c1raw : String → List RawRow := fun _ => [⟨some 43200, some 100, some (['r'])⟩]

lemma lookupCol_map_eq {β : Type} (f : String → β) :
    ∀ (l : List String) (c : String), c ∈ l →
      lookupCol c (l.map fun x => (x, f x)) = some (f c) := by
  intro l
  induction l with
  | nil => intro c hc; cases hc
  | cons a l ih =>
      intro c hc
      by_cases h : c = a
      · subst h; simp [lookupCol]
      · have hmem : c ∈ l := by
          rcases List.mem_cons.mp hc with h1 | h1
          · exact absurd h1 h
          · exact h1
        simp [lookupCol, h, ih c hmem]

lemma lookupCol_map_not_mem {β : Type} (f : String → β) :
    ∀ (l : List String) (c : String), ¬ c ∈ l →
      lookupCol c (l.map fun x => (x, f x)) = none := by
  intro l
  induction l with
  | nil => intro c _; rfl
  | cons a l ih =>
      intro c hc
      have h1 : ¬ c = a := fun h => hc (h ▸ List.mem_cons_self a l)
      have h2 : ¬ c ∈ l := fun h => hc (List.mem_cons_of_mem a h)
      simp [lookupCol, h1, ih c h2]

lemma lookupCol_append_of_some {β : Type} {c : String} {v : β} :
    ∀ {l1 l2 : List (String × β)}, lookupCol c l1 = some v →
      lookupCol c (l1 ++ l2) = some v := by
  intro l1
  induction l1 with
  | nil => intro l2 h; cases h
  | cons kv rest ih =>
      intro l2 h
      by_cases hc : c = kv.1
      · simp [lookupCol, hc] at h ⊢; exact h
      · simp [lookupCol, hc] at h ⊢; exact ih h

lemma lookupCol_append_of_none {β : Type} {c : String} :
    ∀ {l1 l2 : List (String × β)}, lookupCol c l1 = none →
      lookupCol c (l1 ++ l2) = lookupCol c l2 := by
  intro l1
  induction l1 with
  | nil => intro l2 _; rfl
  | cons kv rest ih =>
      intro l2 h
      by_cases hc : c = kv.1
      · simp [lookupCol, hc] at h
      · simp [lookupCol, hc] at h ⊢; exact ih h

/-- C8: prepare_metadata leaves every column outside the fixed numeric list
unchanged: looking such a column up in the output returns exactly the input
cells, row for row. -/
theorem c8_other_columns_unchanged (df : MetaFrame) (c : String)
    (hc : c ∈ df.cols) (hn : ¬ c ∈ numeric_columns) :
    lookupCol c (prepare_metadata df) = some ((df.val c).map OutCell.str) := by
  unfold prepare_metadata
  have hmem : c ∈ df.cols.filter fun x => ¬ x ∈ numeric_columns := by
    apply List.mem_filter.mpr
    exact ⟨hc, by simpa using hn⟩
  exact lookupCol_append_of_some (lookupCol_map_eq _ _ _ hmem)

/-- C8 witness: evaluation at a concrete metadata frame. -/
theorem c8_other_columns_unchanged_witness :
    lookupCol ("Patient Number") (prepare_metadata mdf) = some ([OutCell.str (['P', '1'])]) := by
  have h := c8_other_columns_unchanged mdf ("Patient Number") (by decide) (by decide)
  exact h.trans (by decide)

/-- C4 (amended): every numeric metadata column present in the input is
rewritten cell-wise by stripping the first "/" and casting non-strictly, so
the bare marker "/" becomes null, unparseable text becomes null rather than
an error, and the numeric output retains no "/" character; a cell merely
containing "/" among digits can still cast to a number. -/
theorem c4_numeric_cast_amended (df : MetaFrame) (c : String)
    (hn : c ∈ numeric_columns) (hc : c ∈ df.cols) :
    lookupCol c (prepare_metadata df)
        = some ((df.val c).map fun s => OutCell.num (castCell s))
      ∧ castCell (['/']) = none := by
  constructor
  · unfold prepare_metadata
    have h1 : lookupCol c ((df.cols.filter fun x => ¬ x ∈ numeric_columns).map fun x =>
        (x, (df.val x).map OutCell.str)) = none := by
      apply lookupCol_map_not_mem
      intro hmem
      have hd := (List.mem_filter.mp hmem).2
      exact (of_decide_eq_true hd) hn
    rw [lookupCol_append_of_none h1]
    apply lookupCol_map_eq
    apply List.mem_filter.mpr
    exact ⟨hn, by simpa using hc⟩
  · decide

/-- C4 witness: the concrete frame evaluates as the amended claim states. -/
theorem c4_numeric_cast_amended_witness :
    lookupCol ("HbA1c (mmol/mol)") (prepare_metadata mdf) = some ([OutCell.num (some 12)])
      ∧ castCell (['/']) = none := by
  have h := c4_numeric_cast_amended mdf ("HbA1c (mmol/mol)") (by decide) (by decide)
  exact ⟨h.1.trans (by decide), h.2⟩

/-- C4 counterexample: the numeric cell text "1/2" contains the marker "/",
yet prepare_metadata produces the number 12 for it, not null, because only
the first "/" is stripped before the cast. -/
theorem c4_contains_marker_counterexample :
    mdf.val ("HbA1c (mmol/mol)") = [(['1', '/', '2'])]
      ∧ ('/' ∈ (['1', '/', '2']))
      ∧ lookupCol ("HbA1c (mmol/mol)") (prepare_metadata mdf) = some ([OutCell.num (some 12)])
      ∧ OutCell.num (some 12) ≠ OutCell.num none := by decide

/-- C5 (amended): resolution tries the .xlsx path first; otherwise it tries
the fallback path obtained by replacing every occurrence of ".xlsx" in the
primary path with ".xls" (which is the .xls-extension path whenever ".xlsx"
occurs only as the final extension); if neither candidate exists it fails
with a message naming the subject identifier and the attempted fallback
path. -/
theorem c5_path_resolution_amended (ex : List Char → Bool) (base subj : List Char) :
    (ex (xlsxPath base subj) = true →
        get_chinese_subject_cgm_file_path ex base subj = Except.ok (xlsxPath base subj))
    ∧ (ex (xlsxPath base subj) = false → ex (xlsFallbackPath base subj) = true →
        get_chinese_subject_cgm_file_path ex base subj
          = Except.ok (xlsFallbackPath base subj))
    ∧ (ex (xlsxPath base subj) = false → ex (xlsFallbackPath base subj) = false →
        get_chinese_subject_cgm_file_path ex base subj
            = Except.error (notFoundMsg subj (xlsFallbackPath base subj))
          ∧ (∃ u v, notFoundMsg subj (xlsFallbackPath base subj) = u ++ subj ++ v)
          ∧ (∃ u, notFoundMsg subj (xlsFallbackPath base subj)
              = u ++ xlsFallbackPath base subj)) := by
  refine ⟨fun h1 => ?_, fun h1 h2 => ?_, fun h1 h2 => ?_⟩
  · simp [get_chinese_subject_cgm_file_path, h1]
  · simp [get_chinese_subject_cgm_file_path, h1, h2]
  · refine ⟨by simp [get_chinese_subject_cgm_file_path, h1, h2], ?_, ?_⟩
    · exact ⟨("No CGM file found for subject ").toList,
        (" at ").toList ++ xlsFallbackPath base subj, by simp [notFoundMsg]⟩
    · exact ⟨("No CGM file found for subject ").toList ++ subj ++ (" at ").toList,
        by simp [notFoundMsg]⟩

/-- C5 witness: with an empty filesystem, resolution fails with the message
built from the subject identifier and the fallback path. -/
theorem c5_path_resolution_amended_witness :
    get_chinese_subject_cgm_file_path (fun _ => false) (("data").toList) (("2000").toList)
      = Except.error (notFoundMsg (("2000").toList)
          (xlsFallbackPath (("data").toList) (("2000").toList))) :=
  ((c5_path_resolution_amended (fun _ => false) (("data").toList) (("2000").toList)).2.2
      (by rfl) (by rfl)).1

/-- C5 counterexample: for subject identifier "a.xlsx" the file with the .xls
extension exists, yet resolution fails, because the Python replace rewrites
every ".xlsx" occurrence in the path and probes a different file. -/
theorem c5_xls_extension_counterexample :
    trickyOracle (xlsxPath (("b").toList) (("a.xlsx").toList)) = false
    ∧ trickyOracle (pathJoin (pathJoin (("b").toList) shanghaiDir)
        ((("a.xlsx").toList) ++ xlsSuffix)) = true
    ∧ get_chinese_subject_cgm_file_path trickyOracle (("b").toList) (("a.xlsx").toList)
        = Except.error (notFoundMsg (("a.xlsx").toList)
            (("b/Shanghai_T2DM/a.xls.xls").toList)) := by decide

lemma loadAux_patient (s : String) :
    ∀ (raw : List RawRow) (i : Nat) (r : IndexedRow), r ∈ loadAux s i raw → r.patient = s := by
  intro raw
  induction raw with
  | nil => intro i r hr; cases hr
  | cons a l ih =>
      intro i r hr
      rcases List.mem_cons.mp hr with h | h
      · rw [h]
      · exact ih (i + 1) r h

lemma loadAux_mem_date (s : String) :
    ∀ (raw : List RawRow) (i : Nat) (r : IndexedRow), r ∈ loadAux s i raw →
      ∃ rr ∈ raw, r.date = rr.date := by
  intro raw
  induction raw with
  | nil => intro i r hr; cases hr
  | cons a l ih =>
      intro i r hr
      rcases List.mem_cons.mp hr with h | h
      · exact ⟨a, List.mem_cons_self a l, by rw [h]⟩
      · rcases ih (i + 1) r h with ⟨rr, hrr, heq⟩
        exact ⟨rr, List.mem_cons_of_mem a hrr, heq⟩

lemma loadAux_orders (s : String) :
    ∀ (raw : List RawRow) (i : Nat),
      (loadAux s i raw).map (fun r => r.cgmEventOrder) = List.range' i raw.length := by
  intro raw
  induction raw with
  | nil => intro i; rfl
  | cons a l ih => intro i; simp [loadAux, ih (i + 1), List.range'_succ]

lemma loadAux_length (s : String) :
    ∀ (raw : List RawRow) (i : Nat), (loadAux s i raw).length = raw.length := by
  intro raw
  induction raw with
  | nil => intro i; rfl
  | cons a l ih => intro i; simp [loadAux, ih (i + 1)]

lemma flatten_loads_filter (raw : String → List RawRow) (p : String) (q : IndexedRow → Bool) :
    ∀ (patients : List String), patients.Nodup → p ∈ patients →
      (((patients.map fun s => load_single_subject_cgm_data s (raw s)).flatten.filter q).filter
          fun r => r.patient = p)
        = (load_single_subject_cgm_data p (raw p)).filter q := by
  intro patients
  induction patients with
  | nil => intro _ hp; cases hp
  | cons a ps ih =>
      intro hnd hp
      have hnd2 := (List.nodup_cons.mp hnd).2
      have hna := (List.nodup_cons.mp hnd).1
      simp only [List.map_cons, List.flatten_cons, List.filter_append]
      by_cases hap : a = p
      · subst hap
        have hhead : ((load_single_subject_cgm_data a (raw a)).filter q).filter
            (fun r => decide (r.patient = a))
            = (load_single_subject_cgm_data a (raw a)).filter q := by
          apply List.filter_eq_self.mpr
          intro r hr
          have hpa := loadAux_patient a (raw a) 0 r (List.mem_filter.mp hr).1
          simp [hpa]
        have htail : (((ps.map fun s => load_single_subject_cgm_data s (raw s)).flatten.filter
            q).filter (fun r => decide (r.patient = a))) = [] := by
          apply List.filter_eq_nil_iff.mpr
          intro r hr hcon
          have hrj := (List.mem_filter.mp hr).1
          rcases List.mem_flatten.mp hrj with ⟨l, hl, hrl⟩
          rcases List.mem_map.mp hl with ⟨s, hs, rfl⟩
          have hps := loadAux_patient s (raw s) 0 r hrl
          have hra : r.patient = a := of_decide_eq_true hcon
          have hsa : s = a := by rw [← hps, hra]
          exact hna (hsa ▸ hs)
        rw [hhead, htail, List.append_nil]
      · have hhead : ((load_single_subject_cgm_data a (raw a)).filter q).filter
            (fun r => decide (r.patient = p)) = [] := by
          apply List.filter_eq_nil_iff.mpr
          intro r hr hcon
          have hpa := loadAux_patient a (raw a) 0 r (List.mem_filter.mp hr).1
          have hrp : r.patient = p := of_decide_eq_true hcon
          exact hap (by rw [← hpa, hrp])
        have hp2 : p ∈ ps := by
          rcases List.mem_cons.mp hp with h | h
          · exact absurd h.symm hap
          · exact h
        rw [hhead, ih hnd2 hp2, List.nil_append]

/-- C2 (amended): filtering the combined table by a patient identifier that
occurs once in metadata returns only rows with non-null timestamps; and when
every row loaded for that patient has a non-null timestamp, the per-patient
index column is exactly the dense zero-based sequence 0..n-1.  (When a
null-timestamp row is present the index keeps its pre-filter values, so gaps
can appear; see the counterexample.) -/
theorem c2_single_subject_filter_amended (patients : List String) (raw : String → List RawRow)
    (p : String) (hnd : patients.Nodup) (hp : p ∈ patients) :
    (∀ r ∈ get_single_subject_cgm_data patients raw p, r.date ≠ none)
    ∧ ((∀ r ∈ raw p, r.date ≠ none) →
        (get_single_subject_cgm_data patients raw p).map (fun r => r.cgmEventOrder)
          = List.range (get_single_subject_cgm_data patients raw p).length) := by
  constructor
  · intro r hr
    have h1 := (List.mem_filter.mp hr).1
    have h2 := (List.mem_filter.mp h1).2
    exact of_decide_eq_true h2
  · intro hdates
    have key : get_single_subject_cgm_data patients raw p
        = (load_single_subject_cgm_data p (raw p)).filter (fun r => r.date ≠ none) := by
      unfold get_single_subject_cgm_data cgm_df create_all_cgm_data
      exact flatten_loads_filter raw p _ patients hnd hp
    have hfull : (load_single_subject_cgm_data p (raw p)).filter
        (fun r => decide (r.date ≠ none)) = load_single_subject_cgm_data p (raw p) := by
      apply List.filter_eq_self.mpr
      intro r hr
      rcases loadAux_mem_date p (raw p) 0 r hr with ⟨rr, hrr, heq⟩
      have hne := hdates rr hrr
      simp [heq, hne]
    rw [key, hfull]
    unfold load_single_subject_cgm_data
    rw [loadAux_orders, loadAux_length, List.range_eq_range']

/-- C2 witness: the non-null-timestamp property instantiated on the patient
file that does contain a null-timestamp row, and the dense zero-based index
instantiated on a two-patient table with all timestamps present. -/
theorem c2_single_subject_filter_amended_witness :
    (∀ r ∈ get_single_subject_cgm_data c2Pats c2raw ("P1"), r.date ≠ none)
    ∧ (get_single_subject_cgm_data w2Pats w2raw ("P1")).map (fun r => r.cgmEventOrder)
        = List.range (get_single_subject_cgm_data w2Pats w2raw ("P1")).length :=
  ⟨(c2_single_subject_filter_amended c2Pats c2raw ("P1") (by decide) (by decide)).1,
   (c2_single_subject_filter_amended w2Pats w2raw ("P1") (by decide) (by decide)).2 (by decide)⟩

/-- C2 counterexample: a null-timestamp row in the middle of a patient file
leaves a gap in the per-patient index of the filtered combined table; the
index values are 0 and 2 instead of the dense sequence 0, 1. -/
theorem c2_dense_index_counterexample :
    (get_single_subject_cgm_data c2Pats c2raw ("P1")).map (fun r => r.cgmEventOrder) = [0, 2]
    ∧ (get_single_subject_cgm_data c2Pats c2raw ("P1")).length = 2
    ∧ ([0, 2] : List Nat) ≠ List.range 2 := by decide

lemma flatten_groups_perm {α κ : Type} [DecidableEq κ] (key : α → κ) :
    ∀ (ks : List κ) (l : List α), ks.Nodup → (∀ x ∈ l, key x ∈ ks) →
      (ks.map fun k => l.filter fun x => key x = k).flatten.Perm l := by
  intro ks
  induction ks with
  | nil =>
      intro l _ hall
      have hl : l = [] := by
        cases l with
        | nil => rfl
        | cons a t => exact absurd (hall a (List.mem_cons_self a t)) (List.not_mem_nil (key a))
      subst hl
      simp
  | cons k ks ih =>
      intro l hnd hall
      have hnd2 := (List.nodup_cons.mp hnd).2
      have hkn := (List.nodup_cons.mp hnd).1
      simp only [List.map_cons, List.flatten_cons]
      have htail : (ks.map fun k2 => l.filter fun x => key x = k2)
          = ks.map fun k2 => (l.filter fun x => ¬ key x = k).filter fun x => key x = k2 := by
        apply List.map_congr_left
        intro k2 hk2
        rw [List.filter_filter]
        apply List.filter_congr
        intro x _
        by_cases h : key x = k2
        · have hne2 : ¬ k2 = k := fun hc => hkn (hc ▸ hk2)
          simp [h, hne2]
        · simp [h]
      rw [htail]
      have hside : ∀ x ∈ l.filter fun x => ¬ key x = k, key x ∈ ks := by
        intro x hx
        have hxl := (List.mem_filter.mp hx).1
        have hxne : ¬ key x = k := of_decide_eq_true (List.mem_filter.mp hx).2
        rcases List.mem_cons.mp (hall x hxl) with h | h
        · exact absurd h hxne
        · exact h
      have hihp := ih (l.filter fun x => ¬ key x = k) hnd2 hside
      have hconv : (l.filter fun x => ¬ key x = k)
          = l.filter fun x => !(decide (key x = k)) := by
        apply List.filter_congr
        intro x _
        exact decide_not
      have hfinal : List.Perm ((l.filter fun x => decide (key x = k))
          ++ (l.filter fun x => ¬ key x = k)) l := by
        rw [hconv]
        exact List.filter_append_perm (fun x => decide (key x = k)) l
      exact (List.Perm.append_left _ hihp).trans hfinal

lemma reindexBuckets_orders (sec : Int) (p : String) :
    ∀ (G : List ((String × Int) × List IndexedRow)) (i : Nat),
      ((reindexBuckets sec i G).filter fun b => b.patient = p).map (fun b => b.cgmEventOrders)
        = (G.filter fun kg => kg.1.1 = p).map fun kg => kg.2.map fun r => r.cgmEventOrder := by
  intro G
  induction G with
  | nil => intro i; rfl
  | cons kg rest ih =>
      intro i
      simp only [reindexBuckets, List.filter_cons]
      by_cases h : kg.1.1 = p
      · simp [bucketRecord, h, ih (i + 1)]
      · simp [bucketRecord, h, ih (i + 1)]

lemma groups_filter_fst (key : IndexedRow → String × Int) (l : List IndexedRow) (p : String) :
    ((groupByKey key l).filter fun kg => kg.1.1 = p)
      = ((l.map key).dedup.filter fun k => k.1 = p).map
          fun k => (k, l.filter fun x => key x = k) := by
  unfold groupByKey
  rw [List.filter_map]
  rfl

lemma resample_roundtrip_general (patients : List String) (raw : String → List RawRow)
    (sec : Int) (p : String) :
    Multiset.ofList ((((reindexBuckets sec 0
          (groupByKey (bucketKey sec) (cgm_df patients raw))).filter
        fun b => b.patient = p).map fun b => b.cgmEventOrders).flatten)
      = Multiset.ofList (((cgm_df patients raw).filter fun r => r.patient = p).map
          fun r => r.cgmEventOrder) := by
  rw [reindexBuckets_orders, groups_filter_fst, List.map_map]
  have hcong : ∀ k ∈ ((cgm_df patients raw).map (bucketKey sec)).dedup.filter
      (fun k => k.1 = p),
      ((fun kg => kg.2.map fun r => r.cgmEventOrder) ∘
        (fun k => (k, (cgm_df patients raw).filter fun x => bucketKey sec x = k))) k
        = (((cgm_df patients raw).filter fun r => r.patient = p).filter
            fun x => bucketKey sec x = k).map fun r => r.cgmEventOrder := by
    intro k hk
    have hk1 : k.1 = p := of_decide_eq_true (List.mem_filter.mp hk).2
    show ((cgm_df patients raw).filter fun x => bucketKey sec x = k).map
        (fun r => r.cgmEventOrder)
      = (((cgm_df patients raw).filter fun r => r.patient = p).filter
          fun x => bucketKey sec x = k).map fun r => r.cgmEventOrder
    congr 1
    rw [List.filter_filter]
    apply List.filter_congr
    intro x _
    by_cases h : bucketKey sec x = k
    · have hxp : x.patient = p := by
        rw [← hk1, ← h]
        rfl
      simp [h, hxp]
    · simp [h]
  rw [List.map_congr_left hcong]
  have hmm : (((cgm_df patients raw).map (bucketKey sec)).dedup.filter fun k => k.1 = p).map
      (fun k => (((cgm_df patients raw).filter fun r => r.patient = p).filter
          fun x => bucketKey sec x = k).map fun r => r.cgmEventOrder)
      = ((((cgm_df patients raw).map (bucketKey sec)).dedup.filter fun k => k.1 = p).map
          fun k => ((cgm_df patients raw).filter fun r => r.patient = p).filter
            fun x => bucketKey sec x = k).map (List.map fun r => r.cgmEventOrder) := by
    rw [List.map_map]
    rfl
  rw [hmm, ← List.map_flatten]
  have hperm := flatten_groups_perm (bucketKey sec)
      (((cgm_df patients raw).map (bucketKey sec)).dedup.filter fun k => k.1 = p)
      ((cgm_df patients raw).filter fun r => r.patient = p)
      ((List.nodup_dedup _).filter _)
      (by
        intro x hx
        have hx1 := (List.mem_filter.mp hx).1
        have hx2 : x.patient = p := of_decide_eq_true (List.mem_filter.mp hx).2
        apply List.mem_filter.mpr
        constructor
        · exact List.mem_dedup.mpr (List.mem_map_of_mem _ hx1)
        · have : (bucketKey sec x).1 = p := hx2
          simp [this])
  exact Quot.sound (hperm.map fun r => r.cgmEventOrder)

/-- C3: resampling the full combined table at resolution "1d" and then
flattening, per patient, the per-bucket index lists yields exactly the
multiset of that patient original row indices in the combined table, with no
duplicates and no omissions. -/
theorem c3_resample_roundtrip (patients : List String) (raw : String → List RawRow)
    (p : String) :
    Multiset.ofList ((((get_cgm_data_at_resolution patients raw Resolution.d1).filter
          fun b => b.patient = p).map fun b => b.cgmEventOrders).flatten)
      = Multiset.ofList (((cgm_df patients raw).filter fun r => r.patient = p).map
          fun r => r.cgmEventOrder) := by
  unfold get_cgm_data_at_resolution
  exact resample_roundtrip_general patients raw (Resolution.d1.seconds) p

lemma mkFoodEvents_bounds (b a : Int) :
    ∀ (l : List IndexedRow) (i : Nat) (fe : FoodEvent), fe ∈ mkFoodEvents b a i l →
      fe.startInterval = fe.date + b ∧ fe.endInterval = fe.date + a := by
  intro l
  induction l with
  | nil => intro i fe h; cases h
  | cons r rs ih =>
      intro i fe h
      rcases List.mem_cons.mp h with h1 | h1
      · rw [h1]
        exact ⟨rfl, rfl⟩
      · exact ih (i + 1) fe h1

/-- C6: with offsets -3h and +3h, every food event of a patient has the
window [event - 3h, event + 3h] attached, and the windowed block of readings
is exactly the filter of the patient table to timestamps inside that window,
both boundaries inclusive. -/
theorem c6_window_inclusive (patients : List String) (raw : String → List RawRow) (p : String)
    (fe : FoodEvent)
    (hfe : fe ∈ get_single_subject_food_events patients raw p BeforeOffset.m3h AfterOffset.p3h) :
    fe.startInterval = fe.date - 10800 ∧ fe.endInterval = fe.date + 10800
    ∧ ∀ (cgmData : List IndexedRow) (i : Nat) (pat0 : String),
        eventBlock cgmData fe i pat0
          = (cgmData.filter fun r =>
              fe.date - 10800 ≤ r.date.getD 0 ∧ r.date.getD 0 ≤ fe.date + 10800).map
            (toEventReading fe i pat0) := by
  have hb := mkFoodEvents_bounds (BeforeOffset.m3h.seconds) (AfterOffset.p3h.seconds) _ _ fe hfe
  have hs : fe.startInterval = fe.date - 10800 := by
    rw [hb.1]
    simp only [BeforeOffset.seconds]
    omega
  have he : fe.endInterval = fe.date + 10800 := by
    rw [hb.2]
    simp only [AfterOffset.seconds]
  refine ⟨hs, he, ?_⟩
  intro cgmData i pat0
  unfold eventBlock
  rw [hs, he]

/-- C6 witness: a meal at 12:00; readings at exactly 09:00 and 15:00 are
included, readings one second outside are excluded. -/
theorem c6_window_inclusive_witness :
    w6fe.date = 43200
    ∧ w6fe.startInterval = 43200 - 10800
    ∧ w6fe.endInterval = 43200 + 10800
    ∧ (eventBlock (get_single_subject_cgm_data w6Pats w6raw ("P1")) w6fe 0 ("P1")).map
        (fun r => r.date) = [32400, 43200, 54000] := by
  have h := c6_window_inclusive w6Pats w6raw ("P1") w6fe (by decide)
  refine ⟨by decide, ?_, ?_, by decide⟩
  · exact h.1.trans (by decide)
  · exact h.2.1.trans (by decide)

lemma event_df_ok_shape (patients : List String) (raw : String → List RawRow) (p : String)
    (bo : BeforeOffset) (ao : AfterOffset) {l : List LabeledReading}
    (hl : event_df patients raw p bo ao = Except.ok l) :
    ∃ j : List EventReading, l = j.map labelReading := by
  unfold event_df at hl
  cases hpc : pl_concat (eventBlocks (get_single_subject_cgm_data patients raw p)
      (patZero (get_single_subject_cgm_data patients raw p)) 0
      (get_single_subject_food_events patients raw p bo ao)) with
  | error e =>
      rw [hpc] at hl
      simp [Except.map] at hl
  | ok j =>
      rw [hpc] at hl
      simp [Except.map] at hl
      exact ⟨j, hl.symm⟩

/-- C7: in the labeled event table the meal-type column is "Breakfast"
exactly when the event hour is below 10, "Lunch" exactly when it is at least
10 and below 15, and "Dinner" exactly when it is 15 or later. -/
theorem c7_meal_type_labels (patients : List String) (raw : String → List RawRow) (p : String)
    (bo : BeforeOffset) (ao : AfterOffset) (l : List LabeledReading)
    (hl : event_df patients raw p bo ao = Except.ok l) (r : LabeledReading) (hr : r ∈ l) :
    (r.eventType = breakfastLabel ↔ hourOfDay r.eventDate < 10)
    ∧ (r.eventType = lunchLabel ↔ (10 ≤ hourOfDay r.eventDate ∧ hourOfDay r.eventDate < 15))
    ∧ (r.eventType = dinnerLabel ↔ 15 ≤ hourOfDay r.eventDate) := by
  rcases event_df_ok_shape patients raw p bo ao hl with ⟨j, rfl⟩
  rcases List.mem_map.mp hr with ⟨r0, _, rfl⟩
  have hbl : breakfastLabel ≠ lunchLabel := by decide
  have hbd : breakfastLabel ≠ dinnerLabel := by decide
  have hld : lunchLabel ≠ dinnerLabel := by decide
  show (mealLabel r0.eventDate = breakfastLabel ↔ hourOfDay r0.eventDate < 10)
    ∧ (mealLabel r0.eventDate = lunchLabel
        ↔ (10 ≤ hourOfDay r0.eventDate ∧ hourOfDay r0.eventDate < 15))
    ∧ (mealLabel r0.eventDate = dinnerLabel ↔ 15 ≤ hourOfDay r0.eventDate)
  unfold mealLabel
  by_cases h10 : hourOfDay r0.eventDate < 10
  · rw [if_pos h10]
    exact ⟨iff_of_true rfl h10, iff_of_false hbl (by omega), iff_of_false hbd (by omega)⟩
  · rw [if_neg h10]
    by_cases h15 : hourOfDay r0.eventDate < 15
    · rw [if_pos h15]
      exact ⟨iff_of_false (Ne.symm hbl) h10, iff_of_true rfl ⟨by omega, h15⟩,
        iff_of_false hld (by omega)⟩
    · rw [if_neg h15]
      exact ⟨iff_of_false (Ne.symm hbd) h10, iff_of_false (Ne.symm hld) (by omega),
        iff_of_true rfl (by omega)⟩

/-- C7 witness: events at clock hours 9, 14, 20, 10 and 15 receive the labels
Breakfast, Lunch, Dinner, Lunch and Dinner respectively. -/
theorem c7_meal_type_labels_witness :
    ((w7r 32400).eventType = breakfastLabel ↔ hourOfDay (w7r 32400).eventDate < 10)
    ∧ (w7r 32400).eventType = breakfastLabel
    ∧ (w7r 50400).eventType = lunchLabel
    ∧ (w7r 72000).eventType = dinnerLabel
    ∧ (w7r 36000).eventType = lunchLabel
    ∧ (w7r 54000).eventType = dinnerLabel := by
  refine ⟨?_, by decide, by decide, by decide, by decide, by decide⟩
  exact (c7_meal_type_labels w6Pats w7raw ("P1") BeforeOffset.m3h AfterOffset.p3h w7l
      (by decide) (w7r 32400) (by decide)).1

/-- C10: in the labeled event table the before flag is true exactly when the
reading timestamp is strictly earlier than the event timestamp; a reading at
exactly the event timestamp is labeled as not before. -/
theorem c10_before_flag (patients : List String) (raw : String → List RawRow) (p : String)
    (bo : BeforeOffset) (ao : AfterOffset) (l : List LabeledReading)
    (hl : event_df patients raw p bo ao = Except.ok l) (r : LabeledReading) (hr : r ∈ l) :
    r.isBeforeFoodEvent = true ↔ r.date < r.eventDate := by
  rcases event_df_ok_shape patients raw p bo ao hl with ⟨j, rfl⟩
  rcases List.mem_map.mp hr with ⟨r0, _, rfl⟩
  show decide (r0.eventDate - r0.date > 0) = true ↔ r0.date < r0.eventDate
  simp only [decide_eq_true_eq]
  omega

/-- C10 witness: the reading taken exactly at the event timestamp carries a
false before flag. -/
theorem c10_before_flag_witness :
    (w10r.isBeforeFoodEvent = true ↔ w10r.date < w10r.eventDate)
    ∧ w10r.date = w10r.eventDate
    ∧ w10r.isBeforeFoodEvent = false := by
  refine ⟨?_, by decide, by decide⟩
  exact c10_before_flag w6Pats w6raw ("P1") BeforeOffset.m3h AfterOffset.p3h w10l
    (by decide) w10r (by decide)

/-- C9: a patient with no present dietary-intake value yields an empty food
event table, and the event-segment extraction fails with the empty-concat
error instead of returning an empty table. -/
theorem c9_zero_events_error (patients : List String) (raw : String → List RawRow) (p : String)
    (bo : BeforeOffset) (ao : AfterOffset)
    (h : ∀ r ∈ get_single_subject_cgm_data patients raw p, r.diEng = none) :
    get_single_subject_food_events patients raw p bo ao = []
    ∧ get_single_subject_events_cgm_data patients raw p bo ao
        = Except.error concatEmptyMsg := by
  have hfil : (get_single_subject_cgm_data patients raw p).filter
      (fun r => r.diEng ≠ none) = [] := by
    apply List.filter_eq_nil_iff.mpr
    intro r hr hcon
    exact (of_decide_eq_true hcon) (h r hr)
  have hev : get_single_subject_food_events patients raw p bo ao = [] := by
    unfold get_single_subject_food_events
    rw [hfil]
    rfl
  refine ⟨hev, ?_⟩
  unfold get_single_subject_events_cgm_data event_df
  rw [hev]
  rfl

/-- C9 witness: a patient whose single row has a null intake text. -/
theorem c9_zero_events_error_witness :
    get_single_subject_food_events (["P1"]) w9raw ("P1") BeforeOffset.m3h AfterOffset.p3h = []
    ∧ get_single_subject_events_cgm_data (["P1"]) w9raw ("P1") BeforeOffset.m3h
        AfterOffset.p3h = Except.error concatEmptyMsg :=
  c9_zero_events_error (["P1"]) w9raw ("P1") BeforeOffset.m3h AfterOffset.p3h (by decide)

/-- C1: with two patients contributing one food event each, the concatenated
all-patients food event table keeps the per-patient order values 0 and 0,
duplicated, while the all-patients event-segment table reassigns the fresh
global sequence 0, 1; the food-event side contradicts both the claim and the
reset comment in the source. -/
theorem c1_order_column_code_bug :
    (get_all_food_events c1Pats c1raw BeforeOffset.m3h AfterOffset.p3h).toOption.map
        (fun l => l.map fun fe => fe.eventOrder) = some ([0, 0])
    ∧ ¬ ([0, 0] : List Nat).Nodup
    ∧ (get_all_events_cgm_data c1Pats c1raw BeforeOffset.m3h AfterOffset.p3h).toOption.map
        (fun l => l.map fun s => s.eventOrder) = some ([0, 1])
    ∧ ([0, 1] : List Nat).Nodup := by decide

end CGMSpec
